import Mathlib

/-!
# Verification of the astro-coda-loader core

A shallow embedding, in Lean 4, of the load-and-expand core of the
`astro-coda-loader` repository (`src/coda-loader.ts`, `src/normalize-utils.ts`,
`src/types.ts`), together with theorems checking the repository's
natural-language specification against this embedding.

Modelling conventions:
* JavaScript values flowing through a row's `values` record are modelled by the
  inductive type `RawValue` (string, number, boolean, null, array, object);
  `undefined` is identified with `null` (the source treats the two alike at
  every branch relevant here), and objects are association lists in insertion
  order, mirroring JS object key iteration.
* JS numbers are modelled as `Int`; the exact numeric parse performed by
  `Number(string)` is abstracted by `jsParseNumber` (`none` models `NaN`).
  No theorem below depends on which numbers particular strings parse to.
* The network boundary (`fetchTableData`, which paginates a whole table) is
  modelled by an oracle `FetchTable` passed to the expansion functions:
  given doc id, table id and token it returns either the table's rows keyed by
  row id, or a failure message (network error / timeout / non-success status,
  all of which surface as a thrown exception in the source).
* The mutable `ProcessingContext` of the source is threaded explicitly in
  state-passing style.  Two ghost fields, `fetchLog` and `warnLog`, record the
  observable effects (one entry per table fetch issued, one per warning
  logged); they are appended exactly at the source's fetch / `logger.warn`
  sites and influence nothing.
-/

/-- A raw Coda cell value (`RawValue` in `src/types.ts`): a JS value that is a
string, number, boolean, null/undefined, array, or plain object (objects are
association lists of fields in insertion order).  Tagged SchemaOrg objects
(ImageObject, WebPage, Person, row references) are objects whose `@type` (and
`additionalType`) fields carry string tags, exactly as the source duck-types
them. -/
inductive RawValue where
  | str (s : String)
  | num (n : Int)
  | bool (b : Bool)
  | null
  | list (items : List RawValue)
  | obj (fields : List (String × RawValue))

/-- Field access `value[k]` on a JS object; `none` models `undefined`
(also for non-objects, where the source never reads fields without first
checking `typeof value === 'object'`). -/
def RawValue.getField : RawValue → String → Option RawValue
  | .obj fields, k => fields.lookup k
  | _, _ => none

/-- Does an object's field `k` hold exactly the string `tag`?  Models the
source's duck-typed checks such as `'@type' in value && value["@type"] === "ImageObject"`
(absence of the field and a non-string field both fail the `===`). -/
def fieldIsStr (fields : List (String × RawValue)) (k tag : String) : Bool :=
  match fields.lookup k with
  | some (.str s) => s == tag
  | _ => false

/-- `isRawImage` from `src/normalize-utils.ts`: a non-null object whose
`@type` field is `"ImageObject"`.  (JS arrays have `typeof === 'object'` but no
`@type` property, so they fail the check, as does every primitive.) -/
def isRawImage (value : RawValue) : Bool :=
  match value with
  | .obj fields => fieldIsStr fields "@type" "ImageObject"
  | _ => false

/-- `isRawRowReference` from `src/normalize-utils.ts`: a non-null object tagged
`@type: "StructuredValue"` and `additionalType: "row"`. -/
def isRawRowReference (value : RawValue) : Bool :=
  match value with
  | .obj fields =>
      fieldIsStr fields "@type" "StructuredValue" &&
      fieldIsStr fields "additionalType" "row"
  | _ => false

/-- The empty-ish check `value === null || value === undefined || value === ""`
used throughout `normalizeEmptyToObject` (null and undefined are both
`RawValue.null` here). -/
def isEmptyish (value : RawValue) : Bool :=
  match value with
  | .null => true
  | .str s => s == ""
  | _ => false

/-- The WebPage object literal built by the `link` branch of
`normalizeEmptyToObject` in `src/coda-loader.ts`. -/
def webPageObj (url : String) : RawValue :=
  .obj [("@context", .str "http://schema.org/"),
        ("@type", .str "WebPage"),
        ("url", .str url)]

/-- The Person object literal built by the `person` branch of
`normalizeEmptyToObject` in `src/coda-loader.ts`. -/
def personObj (name : String) : RawValue :=
  .obj [("@context", .str "http://schema.org/"),
        ("@type", .str "Person"),
        ("name", .str name)]

/-- The JS `value.toLowerCase()` used by the boolean branch, modelled as the
per-character ASCII lowering applied across the string's characters (the only
use is comparing against `"true"`/`"false"`). -/
def jsToLowerCase (s : String) : String :=
  String.mk (s.data.map Char.toLower)

/-- Abstraction of the JS numeric parse `Number(value)` on a string, with
`none` for `NaN`; `normalizeEmptyToObject` only uses it through
`isNaN(num) ? 0 : num`.  (`Int.toNat`-level fidelity of the parse itself is
irrelevant to every claim: only "the result is a number" matters.) -/
def jsParseNumber (s : String) : Option Int :=
  s.toInt?

/-- The `link` branch of `normalizeEmptyToObject` (src/coda-loader.ts):
null/undefined/`""` become an empty WebPage object, any other string is
wrapped as a WebPage with that url (the `""` case coincides with the empty
branch), and everything else — including an already-correct WebPage object —
passes through. -/
def normalizeLink (value : RawValue) : RawValue :=
  match value with
  | .null => webPageObj ""
  | .str s => webPageObj s
  | v => v

/-- The `number`/`slider`/`currency` branch of `normalizeEmptyToObject`:
numbers pass through, strings are parsed with `NaN ↦ 0`, null/undefined and
anything else become `0`. -/
def normalizeNumber (value : RawValue) : RawValue :=
  match value with
  | .num n => .num n
  | .str s => .num ((jsParseNumber s).getD 0)
  | _ => .num 0

/-- The `boolean`/`checkbox` branch of `normalizeEmptyToObject`: booleans pass
through, the strings `"true"`/`"false"` (after `toLowerCase()`) become the
booleans, every other string becomes null, and null/undefined and every other
value become null. -/
def normalizeBoolean (value : RawValue) : RawValue :=
  match value with
  | .bool b => .bool b
  | .str s =>
      if jsToLowerCase s == "true" then .bool true
      else if jsToLowerCase s == "false" then .bool false
      else .null
  | _ => .null

/-- The `person` branch of `normalizeEmptyToObject`, mirroring the `link`
branch with a Person object. -/
def normalizePerson (value : RawValue) : RawValue :=
  match value with
  | .null => personObj ""
  | .str s => personObj s
  | v => v

/-- The `image` branch of `normalizeEmptyToObject`: arrays pass through,
null/undefined/`""` become `[]`, a single object tagged `ImageObject` is
wrapped in a singleton array, everything else becomes `[]`. -/
def normalizeImage (value : RawValue) : RawValue :=
  match value with
  | .list items => .list items
  | .null => .list []
  | .obj fields =>
      if fieldIsStr fields "@type" "ImageObject" then .list [.obj fields]
      else .list []
  | _ => .list []

/-- The `lookup` branch of `normalizeEmptyToObject`: arrays pass through,
null/undefined/`""` become `[]`, a single object tagged as a row reference
(`@type: "StructuredValue"`, `additionalType: "row"`) is wrapped in a
singleton array, everything else becomes `[]`. -/
def normalizeLookup (value : RawValue) : RawValue :=
  match value with
  | .list items => .list items
  | .null => .list []
  | .obj fields =>
      if fieldIsStr fields "@type" "StructuredValue" &&
         fieldIsStr fields "additionalType" "row" then .list [.obj fields]
      else .list []
  | _ => .list []

/-- Per-value dispatch of `normalizeEmptyToObject` on the declared column type
(`columnTypes[key]`; `none` models a column with no known type, for which every
branch of the source's if/else chain fails and the value passes through). -/
def normalizeValue (columnType : Option String) (value : RawValue) : RawValue :=
  match columnType with
  | none => value
  | some t =>
      if t == "link" then normalizeLink value
      else if t == "number" || t == "slider" || t == "currency" then
        normalizeNumber value
      else if t == "boolean" || t == "checkbox" then normalizeBoolean value
      else if t == "person" then normalizePerson value
      else if t == "image" then normalizeImage value
      else if t == "lookup" then normalizeLookup value
      else value

/-- `normalizeEmptyToObject` from `src/coda-loader.ts`: copies the values
record and rewrites each entry according to its column's declared type.
(JS object keys are unique and iterated in insertion order, so the
copy-then-overwrite of the source is a per-entry map.) -/
def normalizeEmptyToObject (values : List (String × RawValue))
    (columnTypes : List (String × String)) : List (String × RawValue) :=
  values.map (fun kv => (kv.1, normalizeValue (columnTypes.lookup kv.1) kv.2))

/-- The list of characters of the triple-backtick marker. -/
def tripleBacktick : List Char := "```".data

/-- `cleanString` from `src/normalize-utils.ts`: the regex
`/^` + "```" + `(.*)` + "```" + `$/s` matches exactly the strings of length at
least 6 that start and end with a triple backtick (the `s` flag lets `.` span
newlines); on a match the inner content (group 1) is returned, otherwise the
string is unchanged. -/
def cleanString (s : String) : String :=
  let cs := s.data
  if tripleBacktick.isPrefixOf cs && tripleBacktick.isSuffixOf cs
     && 6 ≤ cs.length then
    String.mk ((cs.drop 3).take (cs.length - 6))
  else s

mutual

/-- `cleanValue` from `src/normalize-utils.ts`: cleans a string leaf, keeps
other primitives (null/undefined collapse to null), and recurses through
arrays (`value.map(item => cleanValue(item))`) and objects preserving
structure. -/
def cleanValue : RawValue → RawValue
  | .null => .null
  | .str s => .str (cleanString s)
  | .num n => .num n
  | .bool b => .bool b
  | .list items => .list (cleanValueList items)
  | .obj fields => .obj (cleanValueFields fields)

/-- The array recursion of `cleanValue` (its `value.map(...)` call). -/
def cleanValueList : List RawValue → List RawValue
  | [] => []
  | v :: rest => cleanValue v :: cleanValueList rest

/-- The object recursion of `cleanValue` (its `Object.entries` loop). -/
def cleanValueFields : List (String × RawValue) → List (String × RawValue)
  | [] => []
  | (k, v) :: rest => (k, cleanValue v) :: cleanValueFields rest

end

/-- `cleanValues` from `src/normalize-utils.ts`: applies `cleanValue` to every
entry of a values record. -/
def cleanValues (values : List (String × RawValue)) : List (String × RawValue) :=
  values.map (fun kv => (kv.1, cleanValue kv.2))

/-- `getImageUrl` from `src/normalize-utils.ts`.  Order of the source's
checks: (1) null/undefined/`''` give null; (2) a non-empty array recurses on
its first element; (3) an `ImageObject`-tagged value yields its `url` field;
(4) everything else gives null.  An empty array falls through (2) and (3) to
null, and a non-empty string falls through to (4).  The result models
`string | null`; `none` is null (and the `undefined` read of a missing `url`
field, which the source's types rule out). -/
def getImageUrl : RawValue → Option RawValue
  | .list (first :: _) => getImageUrl first
  | .obj fields =>
      if isRawImage (.obj fields) then (RawValue.obj fields).getField "url"
      else none
  | _ => none

/-! ## Normalizer theorems -/

lemma normalizeLink_idem (v : RawValue) :
    normalizeLink (normalizeLink v) = normalizeLink v := by
  cases v <;> rfl

lemma normalizeNumber_idem (v : RawValue) :
    normalizeNumber (normalizeNumber v) = normalizeNumber v := by
  cases v <;> rfl

lemma normalizeBoolean_idem (v : RawValue) :
    normalizeBoolean (normalizeBoolean v) = normalizeBoolean v := by
  cases v <;> try rfl
  case str s =>
    cases h1 : (jsToLowerCase s == "true") <;> cases h2 : (jsToLowerCase s == "false") <;>
      simp [normalizeBoolean, h1, h2]

lemma normalizePerson_idem (v : RawValue) :
    normalizePerson (normalizePerson v) = normalizePerson v := by
  cases v <;> rfl

lemma normalizeImage_idem (v : RawValue) :
    normalizeImage (normalizeImage v) = normalizeImage v := by
  cases v <;> try rfl
  case obj fields =>
    by_cases h : fieldIsStr fields "@type" "ImageObject" = true <;>
      simp [normalizeImage, h]

lemma normalizeLookup_idem (v : RawValue) :
    normalizeLookup (normalizeLookup v) = normalizeLookup v := by
  cases v <;> try rfl
  case obj fields =>
    by_cases h : (fieldIsStr fields "@type" "StructuredValue" &&
        fieldIsStr fields "additionalType" "row") = true <;>
      simp [normalizeLookup, h]

lemma normalizeValue_idem (ct : Option String) (v : RawValue) :
    normalizeValue ct (normalizeValue ct v) = normalizeValue ct v := by
  cases ct with
  | none => rfl
  | some t =>
    unfold normalizeValue
    cases h1 : t == "link"
    · cases h2 : (t == "number" || t == "slider" || t == "currency")
      · cases h3 : (t == "boolean" || t == "checkbox")
        · cases h4 : t == "person"
          · cases h5 : t == "image"
            · cases h6 : t == "lookup"
              · simp [h1, h2, h3, h4, h5, h6]
              · simp [h1, h2, h3, h4, h5, h6, normalizeLookup_idem v]
            · simp [h1, h2, h3, h4, h5, normalizeImage_idem v]
          · simp [h1, h2, h3, h4, normalizePerson_idem v]
        · simp [h1, h2, h3, normalizeBoolean_idem v]
      · simp [h1, h2, normalizeNumber_idem v]
    · simp [h1, normalizeLink_idem v]

/-- Claim C6: the value normalizer is idempotent — for every values mapping and
every column-type mapping, running `normalizeEmptyToObject` twice gives the
same result as running it once. -/
theorem claim_C6_normalize_idempotent
    (values : List (String × RawValue)) (columnTypes : List (String × String)) :
    normalizeEmptyToObject (normalizeEmptyToObject values columnTypes) columnTypes
      = normalizeEmptyToObject values columnTypes := by
  unfold normalizeEmptyToObject
  rw [List.map_map]
  apply List.map_congr_left
  intro kv _
  simp only [Function.comp_apply]
  rw [normalizeValue_idem]

/-- The boolean/checkbox normalization rule as the specification's §4.1 table
and §8 state it: `"true"`/`"false"` after case folding become the respective
booleans, any other string becomes null, an existing boolean passes through,
null/undefined are preserved as null, and any other value becomes null.
Stated separately from `normalizeBoolean` so that the source-derived branch can
be compared against the specification's wording. -/
def booleanNormSpec (v : RawValue) : RawValue :=
  match v with
  | .bool b => .bool b
  | .str s =>
      if jsToLowerCase s == "true" then .bool true
      else if jsToLowerCase s == "false" then .bool false
      else .null
  | _ => .null

/-- Claim C7: for cells whose declared column type is `boolean` or `checkbox`,
normalization case-folds the strings `"true"`/`"false"` to the corresponding
booleans (`"TRUE"` gives `true`, `"false"` gives `false`), sends every other
string such as `"yes"` to null, passes booleans through, preserves
null/undefined as null, and sends every other value to null. -/
theorem claim_C7_boolean_normalization :
    (∀ v, normalizeValue (some "boolean") v = booleanNormSpec v)
    ∧ (∀ v, normalizeValue (some "checkbox") v = booleanNormSpec v)
    ∧ normalizeValue (some "boolean") (.str "TRUE") = .bool true
    ∧ normalizeValue (some "boolean") (.str "false") = .bool false
    ∧ normalizeValue (some "boolean") (.str "yes") = .null
    ∧ normalizeValue (some "checkbox") .null = .null
    ∧ (∀ b, normalizeValue (some "checkbox") (.bool b) = .bool b) := by
  refine ⟨fun v => ?_, fun v => ?_, by rfl, by rfl,
    by rfl, rfl, fun b => rfl⟩ <;> cases v <;> rfl

/-! ## getImageUrl theorems -/

/-- Claim C10: `getImageUrl` returns null on null/undefined, the empty string
(indeed any string), numbers, booleans and the empty list; on a non-empty list
it recurses into the first element only; on an object it returns the `url`
field exactly when the object is tagged as an `ImageObject`; and on any
non-list value that is not tagged as an `ImageObject` it returns null. -/
theorem claim_C10_getImageUrl :
    getImageUrl .null = none
    ∧ (∀ s, getImageUrl (.str s) = none)
    ∧ (∀ n, getImageUrl (.num n) = none)
    ∧ (∀ b, getImageUrl (.bool b) = none)
    ∧ getImageUrl (.list []) = none
    ∧ (∀ first rest, getImageUrl (.list (first :: rest)) = getImageUrl first)
    ∧ (∀ fields, getImageUrl (.obj fields) =
        if isRawImage (.obj fields) then (RawValue.obj fields).getField "url"
        else none)
    ∧ (∀ v, isRawImage v = false → (∀ items, v ≠ .list items) →
        getImageUrl v = none) := by
  refine ⟨rfl, fun s => rfl, fun n => rfl, fun b => rfl, rfl,
    fun first rest => rfl, fun fields => rfl, fun v h1 h2 => ?_⟩
  cases v with
  | list items => exact absurd rfl (h2 items)
  | obj fields => simp [getImageUrl, h1]
  | _ => rfl

/-- Witness for claim C10: the hypothesis-bearing conjunct applied at a
concrete untagged object. -/
theorem claim_C10_getImageUrl_witness :
    getImageUrl (.obj [("a", .str "b")]) = none :=
  claim_C10_getImageUrl.2.2.2.2.2.2.2 (.obj [("a", .str "b")]) rfl
    (fun _ h => RawValue.noConfusion h)

/-! ## Sanitizer theorems -/

lemma cleanString_mk (l : List Char) :
    cleanString (String.mk l) =
      if tripleBacktick.isPrefixOf l && tripleBacktick.isSuffixOf l
         && 6 ≤ l.length then
        String.mk ((l.drop 3).take (l.length - 6))
      else String.mk l := rfl

lemma mk_data (t : String) : String.mk t.data = t := by cases t; rfl

lemma cleanString_wrap_aux (mid : List Char) :
    cleanString (String.mk ((tripleBacktick ++ mid) ++ tripleBacktick))
      = String.mk mid := by
  rw [cleanString_mk]
  have hlen : ((tripleBacktick ++ mid) ++ tripleBacktick).length
      = mid.length + 6 := by
    rw [List.length_append, List.length_append]
    have h3 : tripleBacktick.length = 3 := rfl
    rw [h3]; omega
  have hpre : tripleBacktick.isPrefixOf
      ((tripleBacktick ++ mid) ++ tripleBacktick) = true := by
    rw [List.isPrefixOf_iff_prefix, List.append_assoc]
    exact ⟨mid ++ tripleBacktick, rfl⟩
  have hsuf : tripleBacktick.isSuffixOf
      ((tripleBacktick ++ mid) ++ tripleBacktick) = true := by
    rw [List.isSuffixOf_iff_suffix]
    exact ⟨tripleBacktick ++ mid, rfl⟩
  rw [if_pos]
  · have hdrop : ((tripleBacktick ++ mid) ++ tripleBacktick).drop 3
        = mid ++ tripleBacktick := by
      rw [List.append_assoc]
      exact List.drop_left' rfl
    rw [hdrop, hlen]
    have htake : (mid ++ tripleBacktick).take (mid.length + 6 - 6) = mid := by
      have he : mid.length + 6 - 6 = mid.length := by omega
      rw [he]; exact List.take_left _ _
    rw [htake]
  · rw [hpre, hsuf, hlen]
    simp

lemma cleanString_wrapped (t : String) :
    cleanString ("```" ++ t ++ "```") = t := by
  have h : "```" ++ t ++ "```"
      = String.mk ((tripleBacktick ++ t.data) ++ tripleBacktick) :=
    String.ext rfl
  rw [h, cleanString_wrap_aux, mk_data]

lemma cleanString_cases (s : String) :
    cleanString s = s ∨
      ∃ t : String, s = "```" ++ t ++ "```" ∧ cleanString s = t := by
  cases hcond : (tripleBacktick.isPrefixOf s.data
      && tripleBacktick.isSuffixOf s.data && 6 ≤ s.data.length) with
  | false =>
    left
    have hne : ¬(tripleBacktick.isPrefixOf s.data
        && tripleBacktick.isSuffixOf s.data && 6 ≤ s.data.length) = true := by
      rw [hcond]; exact Bool.false_ne_true
    have h := cleanString_mk s.data
    rw [mk_data] at h
    rw [h, if_neg hne]
  | true =>
    right
    have hsplit := hcond
    rw [Bool.and_assoc, Bool.and_eq_true, Bool.and_eq_true] at hsplit
    obtain ⟨hp, hs, hl⟩ := hsplit
    rw [List.isPrefixOf_iff_prefix] at hp
    rw [List.isSuffixOf_iff_suffix] at hs
    obtain ⟨rest, hrest⟩ := hp
    obtain ⟨pre, hpre2⟩ := hs
    have hlen6 : 6 ≤ s.data.length := of_decide_eq_true hl
    have hplen : pre.length + 3 = s.data.length := by
      rw [← hpre2, List.length_append]; rfl
    have h3p : 3 ≤ pre.length := by omega
    have heq : tripleBacktick ++ rest = pre ++ tripleBacktick :=
      hrest.trans hpre2.symm
    have hrest2 : rest = pre.drop 3 ++ tripleBacktick := by
      have hcong := congrArg (List.drop 3) heq
      rw [List.drop_left' (show tripleBacktick.length = 3 from rfl)] at hcong
      rw [hcong, List.drop_append_of_le_length h3p]
    have key : s.data = (tripleBacktick ++ pre.drop 3) ++ tripleBacktick := by
      rw [← hrest, hrest2, List.append_assoc]
    have hseq : s = String.mk ((tripleBacktick ++ pre.drop 3) ++ tripleBacktick) :=
      String.ext key
    refine ⟨String.mk (pre.drop 3), String.ext key, ?_⟩
    rw [hseq, cleanString_wrap_aux]

lemma cleanValueList_eq_map (items : List RawValue) :
    cleanValueList items = items.map cleanValue := by
  induction items with
  | nil => simp [cleanValueList]
  | cons v rest ih => simp [cleanValueList, ih]

lemma cleanValueFields_eq_map (fields : List (String × RawValue)) :
    cleanValueFields fields = fields.map (fun kv => (kv.1, cleanValue kv.2)) := by
  induction fields with
  | nil => simp [cleanValueFields]
  | cons kv rest ih =>
    cases kv
    simp [cleanValueFields, ih]

/-- Claim C8: the string sanitizer returns the inner content of any string
entirely enclosed by a leading and trailing triple-backtick marker (multiline
allowed, since the `mid` part ranges over arbitrary strings), and leaves every
other string unchanged — each string is either returned unchanged or is
exactly a wrapped string whose inner content is returned; in particular the
wrapped string produced from `hello` sanitizes back to `hello` while the
single-backtick string stays unchanged.  `cleanValue` applies this recursively
through lists and mappings and leaves non-string primitives untouched. -/
theorem claim_C8_sanitizer :
    (∀ t : String, cleanString ("```" ++ t ++ "```") = t)
    ∧ (∀ s : String, cleanString s = s ∨
        ∃ t : String, s = "```" ++ t ++ "```" ∧ cleanString s = t)
    ∧ cleanString "```hello```" = "hello"
    ∧ cleanString "`hello`" = "`hello`"
    ∧ (∀ n, cleanValue (.num n) = .num n)
    ∧ (∀ b, cleanValue (.bool b) = .bool b)
    ∧ cleanValue .null = .null
    ∧ (∀ s, cleanValue (.str s) = .str (cleanString s))
    ∧ (∀ items, cleanValue (.list items) = .list (items.map cleanValue))
    ∧ (∀ fields, cleanValue (.obj fields)
        = .obj (fields.map (fun kv => (kv.1, cleanValue kv.2))))
    ∧ (∀ values, cleanValues values
        = values.map (fun kv => (kv.1, cleanValue kv.2))) := by
  refine ⟨cleanString_wrapped, cleanString_cases, by rfl, by rfl,
    fun n => by simp [cleanValue], fun b => by simp [cleanValue],
    by simp [cleanValue], fun s => by simp [cleanValue],
    fun items => ?_, fun fields => ?_, fun values => rfl⟩
  · simp [cleanValue, cleanValueList_eq_map]
  · simp [cleanValue, cleanValueFields_eq_map]

/-! ## Loader construction (configuration errors) -/

/-- The subset of `CodaLoaderOptions` (src/types.ts) that drives
`codaLoader`'s configuration checks, together with the remaining recognized
options; `none` models an absent (undefined) option. -/
structure CodaLoaderOptions where
  token : Option String := none
  docId : Option String := none
  tableIdOrName : Option String := none
  query : Option String := none
  sortBy : Option String := none
  limit : Option Int := none
  cleanStrings : Bool := true
  maxLookupDepth : Int := 0

/-- The environment variables read by `codaLoader`'s default parameter
expressions (src/env.d.ts); `none` models an unset variable. -/
structure ImportMetaEnv where
  CODA_API_TOKEN : Option String := none
  PUBLIC_CODA_API_TOKEN : Option String := none
  CODA_DOC_ID : Option String := none
  PUBLIC_CODA_DOC_ID : Option String := none
  CODA_TABLE_ID : Option String := none
  PUBLIC_CODA_TABLE_ID : Option String := none

/-- JS `a || b` on possibly-undefined strings: `a` when truthy (defined and
non-empty), else `b`. -/
def jsOrElse (a b : Option String) : Option String :=
  match a with
  | some s => if s == "" then b else some s
  | none => b

/-- JS string truthiness negation `!x`: true for undefined and for `""`. -/
def isFalsyStr (v : Option String) : Bool :=
  match v with
  | some s => s == ""
  | none => true

/-- Resolution of one `codaLoader` destructured parameter with its default
expression `opt = import.meta.env.X || import.meta.env.PUBLIC_X`: the default
applies only when the option is undefined. -/
def resolveOption (explicit env1 env2 : Option String) : Option String :=
  match explicit with
  | some v => some v
  | none => jsOrElse env1 env2

/-- The loader object returned by a successful `codaLoader` call: its name and
the configuration captured by the `load`/`schema` closures.  Network activity
happens only inside those closures, never during construction. -/
structure LoaderHandle where
  name : String
  token : String
  docId : String
  tableIdOrName : String
  maxLookupDepth : Int

/-- `codaLoader` from `src/coda-loader.ts` (lines 612-644): resolves token,
doc id and table id/name from the options with environment-variable fallback
and throws an `AstroError` (modelled as `Except.error` with the source's
message) when any of the three is missing, otherwise returns the loader
object.  The function body performs no fetch: the embedding's type takes no
network oracle at all, mirroring that every request happens inside the
returned `load`/`schema` closures. -/
def codaLoader (opts : CodaLoaderOptions) (env : ImportMetaEnv) :
    Except String LoaderHandle :=
  let token := resolveOption opts.token env.CODA_API_TOKEN env.PUBLIC_CODA_API_TOKEN
  let docId := resolveOption opts.docId env.CODA_DOC_ID env.PUBLIC_CODA_DOC_ID
  let tableIdOrName :=
    resolveOption opts.tableIdOrName env.CODA_TABLE_ID env.PUBLIC_CODA_TABLE_ID
  if isFalsyStr token then
    .error "Missing Coda API token. Set it in the CODA_API_TOKEN or PUBLIC_CODA_API_TOKEN environment variable or pass it as an option."
  else if isFalsyStr docId then
    .error "Missing Coda doc ID. Set it in the CODA_DOC_ID or PUBLIC_CODA_DOC_ID environment variable or pass it as an option."
  else if isFalsyStr tableIdOrName then
    .error "Missing Coda table ID or name. Set it in the CODA_TABLE_ID or PUBLIC_CODA_TABLE_ID environment variable or pass it as an option."
  else
    .ok { name := "coda-loader",
          token := (token.getD ""),
          docId := (docId.getD ""),
          tableIdOrName := (tableIdOrName.getD ""),
          maxLookupDepth := opts.maxLookupDepth }

/-- Claim C9: constructing the loader fails exactly when one of token, doc id
or table id/name is still missing after environment-variable fallback, and the
failure happens during the pure construction (before any fetch: `codaLoader`
takes no network oracle and returns without one); in particular a missing doc
id with token and table present yields the doc-id configuration error. -/
theorem claim_C9_configuration_errors :
    (∀ opts env, (∃ h, codaLoader opts env = .ok h) ↔
      (isFalsyStr (resolveOption opts.token env.CODA_API_TOKEN
          env.PUBLIC_CODA_API_TOKEN) = false
        ∧ isFalsyStr (resolveOption opts.docId env.CODA_DOC_ID
            env.PUBLIC_CODA_DOC_ID) = false
        ∧ isFalsyStr (resolveOption opts.tableIdOrName env.CODA_TABLE_ID
            env.PUBLIC_CODA_TABLE_ID) = false))
    ∧ (∀ opts env,
        isFalsyStr (resolveOption opts.token env.CODA_API_TOKEN
          env.PUBLIC_CODA_API_TOKEN) = false →
        isFalsyStr (resolveOption opts.docId env.CODA_DOC_ID
          env.PUBLIC_CODA_DOC_ID) = true →
        codaLoader opts env =
          .error "Missing Coda doc ID. Set it in the CODA_DOC_ID or PUBLIC_CODA_DOC_ID environment variable or pass it as an option.") := by
  constructor
  · intro opts env
    unfold codaLoader
    cases h1 : isFalsyStr (resolveOption opts.token env.CODA_API_TOKEN
        env.PUBLIC_CODA_API_TOKEN) <;>
      cases h2 : isFalsyStr (resolveOption opts.docId env.CODA_DOC_ID
        env.PUBLIC_CODA_DOC_ID) <;>
      cases h3 : isFalsyStr (resolveOption opts.tableIdOrName env.CODA_TABLE_ID
        env.PUBLIC_CODA_TABLE_ID) <;>
      simp [h1, h2, h3]
  · intro opts env h1 h2
    unfold codaLoader
    simp [h1, h2]

/-- Witness for claim C9: concrete options with a token and table but no doc
id anywhere fail with the doc-id error, via the theorem's second conjunct. -/
theorem claim_C9_configuration_errors_witness :
    codaLoader { token := some "tok", tableIdOrName := some "Projects" } {} =
      .error "Missing Coda doc ID. Set it in the CODA_DOC_ID or PUBLIC_CODA_DOC_ID environment variable or pass it as an option." :=
  claim_C9_configuration_errors.2
    { token := some "tok", tableIdOrName := some "Projects" } {} rfl rfl

/-! ## Lookup expansion engine (`src/coda-loader.ts`, part_000 lines 36-429) -/

/-- `CodaRow` from `src/types.ts`. -/
structure CodaRow where
  id : String
  type : String
  href : String
  name : Option String
  index : Int
  createdAt : String
  updatedAt : String
  browserLink : String
  values : List (String × RawValue)

/-- The network boundary of the expansion engine:
`fetchTableData(docId, tableId, token, logger)` assembles, across paginated
requests, the referenced table's full row set keyed by row id
(`Map<string, CodaRow>`), or throws (network error, timeout, or non-success
HTTP status).  The expansion theorems quantify over this oracle; `.error`
models the thrown failure's message. -/
def FetchTable : Type :=
  String → String → String → Except String (List (String × CodaRow))

/-- `ProcessingContext` from `src/coda-loader.ts` (lines 36-41): the
per-top-level-row processed-reference set, the session-wide row-level cache
(`tableId:rowId → CodaRow | null`; a `(key, none)` entry is a cached null, an
absent key is `undefined`), the session-wide table-level cache, and the request
counter.  `fetchLog` and `warnLog` are ghost instrumentation: one entry is
prepended to `fetchLog` exactly where the source increments `requestCount` and
calls `fetchTableData`, and one to `warnLog` exactly at the `logger.warn` site
of the catch block; they affect no behaviour. -/
structure ProcessingContext where
  processedRefs : List String
  cache : List (String × Option CodaRow)
  tableCache : List (String × List (String × CodaRow))
  requestCount : Nat
  fetchLog : List String
  warnLog : List String

/-- The fresh context built at the top of `expandLookups` (lines 351-356). -/
def initialContext : ProcessingContext :=
  { processedRefs := [], cache := [], tableCache := [],
    requestCount := 0, fetchLog := [], warnLog := [] }

/-- Duck-typed string field read `reference.k` on a reference value; a missing
field is JS `undefined`, which the source only ever interpolates into the
template string `` `${...}` `` (rendering as `"undefined"`). -/
def refStrField (reference : RawValue) (k : String) : String :=
  match reference.getField k with
  | some (.str s) => s
  | _ => "undefined"

/-- `reference.tableId`. -/
def refTableId (reference : RawValue) : String := refStrField reference "tableId"

/-- `reference.rowId`. -/
def refRowId (reference : RawValue) : String := refStrField reference "rowId"

/-- The cycle-detection key `` `${reference.tableId}:${reference.rowId}` ``. -/
def refKeyOf (reference : RawValue) : String :=
  refTableId reference ++ ":" ++ refRowId reference

/-- JS object spread-with-assignment `{...fields, k: v}`: overwrite `k` in
place if present, else append it. -/
def setField (fields : List (String × RawValue)) (k : String) (v : RawValue) :
    List (String × RawValue) :=
  if (fields.lookup k).isSome then
    fields.map (fun kv => if kv.1 == k then (kv.1, v) else kv)
  else fields ++ [(k, v)]

/-- `{...value, k: v}` on a reference object (callers only apply it to values
that satisfy `isRawRowReference`, hence objects). -/
def setObjField (value : RawValue) (k : String) (v : RawValue) : RawValue :=
  match value with
  | .obj fields => .obj (setField fields k v)
  | other => other

/-- The cache/fetch core of `expandSingleReference` (lines 62-102 of
part_000), factored out of the recursion: (1) try the table-level cache;
(2) else try the row-level cache (a cached null counts as present); (3) if the
key is entirely unknown, fetch the whole table (incrementing `requestCount`
before the call, exactly as the source does) and cache both the table and the
row; the catch block caches null for the key, logs a warning, and yields null.
The specification calls this step the Reference Resolver (§4.3). -/
def resolveReference (fetch : FetchTable) (docId token : String)
    (reference : RawValue) (context : ProcessingContext) :
    Option CodaRow × ProcessingContext :=
  let refKey := refKeyOf reference
  let tableId := refTableId reference
  let rowId := refRowId reference
  let step1 : Option CodaRow :=
    match context.tableCache.lookup tableId with
    | some table => table.lookup rowId
    | none => none
  let step2 : Option CodaRow :=
    match step1 with
    | some r => some r
    | none =>
        match context.cache.lookup refKey with
        | some cached => cached
        | none => none
  if step2.isNone && (context.cache.lookup refKey).isNone then
    match context.tableCache.lookup tableId with
    | some table =>
        let r := table.lookup rowId
        (r, { context with cache := (refKey, r) :: context.cache })
    | none =>
        let context1 := { context with
          requestCount := context.requestCount + 1,
          fetchLog := tableId :: context.fetchLog }
        match fetch docId tableId token with
        | .ok table =>
            let context2 := { context1 with
              tableCache := (tableId, table) :: context1.tableCache }
            let r := table.lookup rowId
            (r, { context2 with cache := (refKey, r) :: context2.cache })
        | .error e =>
            (none, { context1 with
              cache := (refKey, none) :: context1.cache,
              warnLog := ("Failed to fetch table " ++ tableId ++ ": " ++ e)
                :: context1.warnLog })
  else
    (step2, context)

/-- `expandSingleReference` (lines 46-137 of part_000) with the recursive call
`expandRowLookups(referencedRow, …, currentDepth + 1, maxDepth)` abstracted as
the continuation `deeper`: if the reference key is already in
`processedRefs`, return null at once (no cache access, no network call);
otherwise resolve via `resolveReference`; a null resolution returns null; a
resolved row is marked processed, expanded one level deeper, and the original
reference is returned with a `values: {id, values}` sub-object spliced in. -/
def expandSingleWith (fetch : FetchTable) (docId token : String)
    (deeper : CodaRow → ProcessingContext → CodaRow × ProcessingContext)
    (reference : RawValue) (context : ProcessingContext) :
    Option RawValue × ProcessingContext :=
  let refKey := refKeyOf reference
  if context.processedRefs.contains refKey then
    (none, context)
  else
    match resolveReference fetch docId token reference context with
    | (none, context1) => (none, context1)
    | (some referencedRow, context1) =>
        let context2 := { context1 with
          processedRefs := refKey :: context1.processedRefs }
        let (deeperExpandedRow, context3) := deeper referencedRow context2
        (some (setObjField reference "values"
            (.obj [("id", .str deeperExpandedRow.id),
                   ("values", .obj deeperExpandedRow.values)])), context3)

/-- One iteration of the array loop of `expandRowLookups` (lines 184-211 of
part_000): a non-reference item is kept untouched; a reference item is
expanded through `expandSingleWith`, keeping the original item when expansion
yields null; the flag reports whether this item was actually expanded (the
loop's contribution to `hasExpanded`). -/
def expandItemHead (fetch : FetchTable) (docId token : String)
    (deeper : CodaRow → ProcessingContext → CodaRow × ProcessingContext)
    (item : RawValue) (context : ProcessingContext) :
    RawValue × Bool × ProcessingContext :=
  if isRawRowReference item then
    match expandSingleWith fetch docId token deeper item context with
    | (some expandedRef, context1) => (expandedRef, true, context1)
    | (none, context1) => (item, false, context1)
  else (item, false, context)

/-- The array branch of `expandRowLookups` (lines 180-216 of part_000): each
item is processed by `expandItemHead` with the context threaded through in
order, and the returned flag is the loop's final `hasExpanded` (true iff some
item expanded). -/
def expandItemsWith (fetch : FetchTable) (docId token : String)
    (deeper : CodaRow → ProcessingContext → CodaRow × ProcessingContext) :
    List RawValue → ProcessingContext →
      List RawValue × Bool × ProcessingContext
  | [], context => ([], false, context)
  | item :: rest, context =>
      let (newItem, expandedHere, context1) :=
        expandItemHead fetch docId token deeper item context
      let (restItems, restExpanded, context2) :=
        expandItemsWith fetch docId token deeper rest context1
      (newItem :: restItems, expandedHere || restExpanded, context2)

/-- One iteration of the `Object.entries(row.values)` loop of
`expandRowLookups` (lines 160-218 of part_000): a single reference value is
replaced only when `expandSingleWith` succeeds (`expandedValues[key]` is only
assigned under `if (expandedRef)`); an array value is replaced by the
item-expanded array only when at least one item was actually expanded
(`if (hasExpanded)`); every other value is kept with the context untouched. -/
def expandEntryHead (fetch : FetchTable) (docId token : String)
    (deeper : CodaRow → ProcessingContext → CodaRow × ProcessingContext)
    (key : String) (value : RawValue) (context : ProcessingContext) :
    (String × RawValue) × ProcessingContext :=
  if isRawRowReference value then
    match expandSingleWith fetch docId token deeper value context with
    | (some expandedRef, context1) => ((key, expandedRef), context1)
    | (none, context1) => ((key, value), context1)
  else
    match value with
    | .list items =>
        let (expandedItems, hasExpanded, context1) :=
          expandItemsWith fetch docId token deeper items context
        ((key, if hasExpanded then .list expandedItems else value), context1)
    | _ => ((key, value), context)

/-- The `Object.entries(row.values)` loop of `expandRowLookups`: the entries
are processed in iteration order with the context threaded through.  Keys are
unique in a JS object, so the source's copy-then-overwrite of
`expandedValues` is this per-entry rebuild in order. -/
def expandEntriesWith (fetch : FetchTable) (docId token : String)
    (deeper : CodaRow → ProcessingContext → CodaRow × ProcessingContext) :
    List (String × RawValue) → ProcessingContext →
      List (String × RawValue) × ProcessingContext
  | [], context => ([], context)
  | (key, value) :: rest, context =>
      let (entry, context1) :=
        expandEntryHead fetch docId token deeper key value context
      let (restEntries, context2) :=
        expandEntriesWith fetch docId token deeper rest context1
      (entry :: restEntries, context2)

/-- `expandRowLookups` (lines 142-224 of part_000), driven by an explicit
fuel so that the mutual recursion of the source (`expandRowLookups` →
`expandSingleReference` → `expandRowLookups` at `currentDepth + 1`) becomes
structural.  The wrappers below always supply
`fuel = (maxDepth - currentDepth).toNat`, under which the fuel never runs out
before the source's own base case `maxDepth <= 0 || currentDepth >= maxDepth`
fires (see `expandRowLookups_unfold`); the acceptance of this definition is
the depth-bound termination argument of claim C1. -/
def expandRowAux (fetch : FetchTable) (docId token : String) :
    Nat → Int → Int → CodaRow → ProcessingContext →
      CodaRow × ProcessingContext
  | 0, _, _, row, context => (row, context)
  | fuel + 1, currentDepth, maxDepth, row, context =>
      if maxDepth ≤ 0 ∨ currentDepth ≥ maxDepth then (row, context)
      else
        let (expandedValues, context1) :=
          expandEntriesWith fetch docId token
            (fun r c =>
              expandRowAux fetch docId token fuel (currentDepth + 1) maxDepth r c)
            row.values context
        ({ row with values := expandedValues }, context1)

/-- `expandRowLookups(row, docId, token, context, currentDepth, maxDepth)`. -/
def expandRowLookups (fetch : FetchTable) (docId token : String)
    (row : CodaRow) (context : ProcessingContext)
    (currentDepth maxDepth : Int) : CodaRow × ProcessingContext :=
  expandRowAux fetch docId token (maxDepth - currentDepth).toNat
    currentDepth maxDepth row context

/-- `expandSingleReference(reference, docId, token, context, currentDepth,
maxDepth)`: `expandSingleWith` whose deeper continuation is
`expandRowLookups` at `currentDepth + 1`, exactly as in the source. -/
def expandSingleReference (fetch : FetchTable) (docId token : String)
    (reference : RawValue) (context : ProcessingContext)
    (currentDepth maxDepth : Int) : Option RawValue × ProcessingContext :=
  expandSingleWith fetch docId token
    (fun r c => expandRowLookups fetch docId token r c (currentDepth + 1) maxDepth)
    reference context

/-- The per-row loop of `expandLookups` (lines 367-408 of part_000):
`processedRefs` is cleared before each top-level row (`clear()`; cross-row
circular references stay allowed) while `cache`, `tableCache` and
`requestCount` persist across the whole batch.  The source's per-row
try/catch (fall back to the unexpanded row) has no effect in the model, where
`expandRowLookups` is total. -/
def expandAllRows (fetch : FetchTable) (docId token : String) (maxDepth : Int) :
    List CodaRow → ProcessingContext → List CodaRow × ProcessingContext
  | [], context => ([], context)
  | row :: rest, context =>
      let context0 := { context with processedRefs := [] }
      let (expandedRow, context1) :=
        expandRowLookups fetch docId token row context0 0 maxDepth
      let (expandedRest, context2) :=
        expandAllRows fetch docId token maxDepth rest context1
      (expandedRow :: expandedRest, context2)

/-- `expandLookups(rows, docId, token, maxDepth, logger)` (lines 338-429 of
part_000): with `maxDepth <= 0` the rows are returned unchanged before the
context is even created (the model returns the fresh context to expose that no
activity happened); otherwise a single fresh context is created and every row
is expanded through it. -/
def expandLookups (fetch : FetchTable) (docId token : String)
    (rows : List CodaRow) (maxDepth : Int) :
    List CodaRow × ProcessingContext :=
  if maxDepth ≤ 0 then (rows, initialContext)
  else expandAllRows fetch docId token maxDepth rows initialContext

/-! ## Expansion engine lemmas -/

lemma expandRowLookups_base (fetch : FetchTable) (docId token : String)
    (row : CodaRow) (context : ProcessingContext) {d m : Int}
    (h : m ≤ 0 ∨ d ≥ m) :
    expandRowLookups fetch docId token row context d m = (row, context) := by
  unfold expandRowLookups
  cases hn : (m - d).toNat with
  | zero => rfl
  | succ n =>
    simp only [expandRowAux]
    rw [if_pos h]

lemma expandRowLookups_step (fetch : FetchTable) (docId token : String)
    (row : CodaRow) (context : ProcessingContext) {d m : Int}
    (h : ¬(m ≤ 0 ∨ d ≥ m)) :
    expandRowLookups fetch docId token row context d m =
      (let (expandedValues, context1) :=
        expandEntriesWith fetch docId token
          (fun r c => expandRowLookups fetch docId token r c (d + 1) m)
          row.values context
      ({ row with values := expandedValues }, context1)) := by
  unfold expandRowLookups
  have h1 : (m - d).toNat = (m - (d + 1)).toNat + 1 := by omega
  rw [h1]
  simp only [expandRowAux]
  rw [if_neg h]

lemma resolveReference_cases (fetch : FetchTable) (docId token : String)
    (reference : RawValue) (context : ProcessingContext) :
    (∃ r, resolveReference fetch docId token reference context = (r, context))
    ∨ (∃ r, resolveReference fetch docId token reference context =
        (r, { context with cache := (refKeyOf reference, r) :: context.cache }))
    ∨ (∃ table r, fetch docId (refTableId reference) token = .ok table
        ∧ context.tableCache.lookup (refTableId reference) = none
        ∧ resolveReference fetch docId token reference context =
          (r, { context with
            requestCount := context.requestCount + 1,
            fetchLog := refTableId reference :: context.fetchLog,
            tableCache := (refTableId reference, table) :: context.tableCache,
            cache := (refKeyOf reference, r) :: context.cache }))
    ∨ (∃ e, fetch docId (refTableId reference) token = .error e
        ∧ context.tableCache.lookup (refTableId reference) = none
        ∧ resolveReference fetch docId token reference context =
          (none, { context with
            requestCount := context.requestCount + 1,
            fetchLog := refTableId reference :: context.fetchLog,
            cache := (refKeyOf reference, none) :: context.cache,
            warnLog := ("Failed to fetch table " ++ refTableId reference ++ ": " ++ e)
              :: context.warnLog })) := by
  unfold resolveReference
  set refKey := refKeyOf reference with hrk
  set tableId := refTableId reference with hti
  set rowId := refRowId reference with hri
  cases htc : context.tableCache.lookup tableId with
  | some table =>
    cases htr : table.lookup rowId with
    | some r =>
      left
      exact ⟨some r, by simp [htc, htr]⟩
    | none =>
      cases hcc : context.cache.lookup refKey with
      | some cached =>
        left
        exact ⟨cached, by simp [htc, htr, hcc]⟩
      | none =>
        right; left
        exact ⟨table.lookup rowId, by simp [htc, htr, hcc]⟩
  | none =>
    cases hcc : context.cache.lookup refKey with
    | some cached =>
      left
      exact ⟨cached, by simp [htc, hcc]⟩
    | none =>
      cases hf : fetch docId tableId token with
      | ok table =>
        right; right; left
        exact ⟨table, table.lookup rowId, rfl, rfl, by simp [htc, hcc, hf]⟩
      | error e =>
        right; right; right
        exact ⟨e, rfl, rfl, by simp [htc, hcc, hf]⟩

/-- Session invariant for claim C3, for a fixed table id `T` whose fetch
succeeds: `T` was fetched at most once so far; if it was fetched, it is in the
table-level cache (which is never evicted); and the request counter counts
exactly the fetch sites executed. -/
def tableFetchInv (T : String) (context : ProcessingContext) : Prop :=
  context.fetchLog.count T ≤ 1
  ∧ (1 ≤ context.fetchLog.count T → (context.tableCache.lookup T).isSome = true)
  ∧ context.requestCount = context.fetchLog.length

lemma resolveReference_inv {fetch : FetchTable} {docId token T : String}
    {tbl : List (String × CodaRow)} (hok : fetch docId T token = .ok tbl)
    (reference : RawValue) (context : ProcessingContext)
    (h : tableFetchInv T context) :
    tableFetchInv T (resolveReference fetch docId token reference context).2 := by
  rcases resolveReference_cases fetch docId token reference context with
    ⟨r, hE⟩ | ⟨r, hE⟩ | ⟨table, r, hf, htc, hE⟩ | ⟨e, hf, htc, hE⟩
  · rw [hE]; exact h
  · rw [hE]; exact h
  · rw [hE]
    by_cases hT : refTableId reference = T
    · subst hT
      have hcount : context.fetchLog.count (refTableId reference) = 0 := by
        by_contra hc
        have h1 : 1 ≤ context.fetchLog.count (refTableId reference) := by omega
        have h2 := h.2.1 h1
        rw [htc] at h2
        simp at h2
      refine ⟨?_, ?_, ?_⟩
      · simp [List.count_cons, hcount]
      · intro _
        simp [List.lookup]
      · simp [h.2.2]
    · have hne : (T == refTableId reference) = false := by
        simp
        exact fun he => hT he.symm
      refine ⟨?_, ?_, ?_⟩
      · simp [List.count_cons, hT, h.1]
      · intro h1
        simp only [List.count_cons, beq_iff_eq, hT, if_false, Nat.add_zero] at h1
        have h2 := h.2.1 h1
        simpa [List.lookup, hne] using h2
      · simp [h.2.2]
  · rw [hE]
    by_cases hT : refTableId reference = T
    · subst hT
      rw [hok] at hf
      exact absurd hf (by simp)
    · refine ⟨?_, ?_, ?_⟩
      · simp [List.count_cons, hT, h.1]
      · intro h1
        simp only [List.count_cons, beq_iff_eq, hT, if_false, Nat.add_zero] at h1
        exact h.2.1 h1
      · simp [h.2.2]

lemma expandSingleWith_inv {fetch : FetchTable} {docId token T : String}
    {tbl : List (String × CodaRow)} (hok : fetch docId T token = .ok tbl)
    {deeper : CodaRow → ProcessingContext → CodaRow × ProcessingContext}
    (hdeeper : ∀ r c, tableFetchInv T c → tableFetchInv T (deeper r c).2)
    (reference : RawValue) (context : ProcessingContext)
    (h : tableFetchInv T context) :
    tableFetchInv T (expandSingleWith fetch docId token deeper reference context).2 := by
  unfold expandSingleWith
  by_cases hp : context.processedRefs.contains (refKeyOf reference) = true
  · simp only [hp, if_true]
    exact h
  · simp only [Bool.not_eq_true] at hp
    simp only [hp, Bool.false_eq_true, if_false]
    rcases hR : resolveReference fetch docId token reference context with ⟨res, c1⟩
    have hc1 : tableFetchInv T c1 := by
      have hr := resolveReference_inv hok reference context h
      rwa [hR] at hr
    cases res with
    | none => exact hc1
    | some referencedRow =>
      rcases hD : deeper referencedRow
          { c1 with processedRefs := refKeyOf reference :: c1.processedRefs }
        with ⟨drow, c3⟩
      have hd := hdeeper referencedRow
        { c1 with processedRefs := refKeyOf reference :: c1.processedRefs } hc1
      rw [hD] at hd
      simpa [hD] using hd

lemma expandItemHead_inv {fetch : FetchTable} {docId token T : String}
    {tbl : List (String × CodaRow)} (hok : fetch docId T token = .ok tbl)
    {deeper : CodaRow → ProcessingContext → CodaRow × ProcessingContext}
    (hdeeper : ∀ r c, tableFetchInv T c → tableFetchInv T (deeper r c).2)
    (item : RawValue) (context : ProcessingContext)
    (h : tableFetchInv T context) :
    tableFetchInv T (expandItemHead fetch docId token deeper item context).2.2 := by
  unfold expandItemHead
  by_cases hr : isRawRowReference item = true
  · simp only [hr, if_true]
    rcases hE : expandSingleWith fetch docId token deeper item context with ⟨res, c1⟩
    have hc1 : tableFetchInv T c1 := by
      have h1 := expandSingleWith_inv hok hdeeper item context h
      rwa [hE] at h1
    cases res <;> exact hc1
  · simp only [Bool.not_eq_true] at hr
    simp only [hr, Bool.false_eq_true, if_false]
    exact h

lemma expandItemsWith_inv {fetch : FetchTable} {docId token T : String}
    {tbl : List (String × CodaRow)} (hok : fetch docId T token = .ok tbl)
    {deeper : CodaRow → ProcessingContext → CodaRow × ProcessingContext}
    (hdeeper : ∀ r c, tableFetchInv T c → tableFetchInv T (deeper r c).2)
    (items : List RawValue) :
    ∀ context, tableFetchInv T context →
      tableFetchInv T (expandItemsWith fetch docId token deeper items context).2.2 := by
  induction items with
  | nil => intro context h; exact h
  | cons item rest ih =>
    intro context h
    unfold expandItemsWith
    rcases hH : expandItemHead fetch docId token deeper item context with ⟨ni, eh, c1⟩
    have hc1 : tableFetchInv T c1 := by
      have h1 := expandItemHead_inv hok hdeeper item context h
      rwa [hH] at h1
    rcases hRest : expandItemsWith fetch docId token deeper rest c1 with ⟨ri, re, c2⟩
    have h2 := ih c1 hc1
    rw [hRest] at h2
    simpa [hH, hRest] using h2

lemma expandEntryHead_inv {fetch : FetchTable} {docId token T : String}
    {tbl : List (String × CodaRow)} (hok : fetch docId T token = .ok tbl)
    {deeper : CodaRow → ProcessingContext → CodaRow × ProcessingContext}
    (hdeeper : ∀ r c, tableFetchInv T c → tableFetchInv T (deeper r c).2)
    (key : String) (value : RawValue) (context : ProcessingContext)
    (h : tableFetchInv T context) :
    tableFetchInv T (expandEntryHead fetch docId token deeper key value context).2 := by
  unfold expandEntryHead
  by_cases hr : isRawRowReference value = true
  · simp only [hr, if_true]
    rcases hE : expandSingleWith fetch docId token deeper value context with ⟨res, c1⟩
    have hc1 : tableFetchInv T c1 := by
      have h1 := expandSingleWith_inv hok hdeeper value context h
      rwa [hE] at h1
    cases res <;> exact hc1
  · simp only [Bool.not_eq_true] at hr
    simp only [hr, Bool.false_eq_true, if_false]
    cases value with
    | list items =>
      rcases hI : expandItemsWith fetch docId token deeper items context with ⟨ei, hx, c1⟩
      have h1 := expandItemsWith_inv hok hdeeper items context h
      rw [hI] at h1
      simpa [hI] using h1
    | str s => exact h
    | num n => exact h
    | bool b => exact h
    | null => exact h
    | obj fields => exact h

lemma expandEntriesWith_inv {fetch : FetchTable} {docId token T : String}
    {tbl : List (String × CodaRow)} (hok : fetch docId T token = .ok tbl)
    {deeper : CodaRow → ProcessingContext → CodaRow × ProcessingContext}
    (hdeeper : ∀ r c, tableFetchInv T c → tableFetchInv T (deeper r c).2)
    (entries : List (String × RawValue)) :
    ∀ context, tableFetchInv T context →
      tableFetchInv T (expandEntriesWith fetch docId token deeper entries context).2 := by
  induction entries with
  | nil => intro context h; exact h
  | cons kv rest ih =>
    rcases kv with ⟨key, value⟩
    intro context h
    unfold expandEntriesWith
    rcases hH : expandEntryHead fetch docId token deeper key value context with ⟨entry, c1⟩
    have hc1 : tableFetchInv T c1 := by
      have h1 := expandEntryHead_inv hok hdeeper key value context h
      rwa [hH] at h1
    rcases hRest : expandEntriesWith fetch docId token deeper rest c1 with ⟨re, c2⟩
    have h2 := ih c1 hc1
    rw [hRest] at h2
    simpa [hH, hRest] using h2

lemma expandRowAux_inv {fetch : FetchTable} {docId token T : String}
    {tbl : List (String × CodaRow)} (hok : fetch docId T token = .ok tbl)
    (fuel : Nat) :
    ∀ (d m : Int) (row : CodaRow) (context : ProcessingContext),
      tableFetchInv T context →
      tableFetchInv T (expandRowAux fetch docId token fuel d m row context).2 := by
  induction fuel with
  | zero => intro d m row context h; exact h
  | succ fuel ih =>
    intro d m row context h
    unfold expandRowAux
    by_cases hg : m ≤ 0 ∨ d ≥ m
    · rw [if_pos hg]; exact h
    · rw [if_neg hg]
      rcases hE : expandEntriesWith fetch docId token
          (fun r c => expandRowAux fetch docId token fuel (d + 1) m r c)
          row.values context with ⟨ev, c1⟩
      have h2 := expandEntriesWith_inv hok
        (fun r c hc => ih (d + 1) m r c hc) row.values context h
      rw [hE] at h2
      simpa [hE] using h2

lemma expandAllRows_inv {fetch : FetchTable} {docId token T : String}
    {tbl : List (String × CodaRow)} (hok : fetch docId T token = .ok tbl)
    (maxDepth : Int) (rows : List CodaRow) :
    ∀ context, tableFetchInv T context →
      tableFetchInv T (expandAllRows fetch docId token maxDepth rows context).2 := by
  induction rows with
  | nil => intro context h; exact h
  | cons row rest ih =>
    intro context h
    unfold expandAllRows
    rcases hR : expandRowLookups fetch docId token row
        { context with processedRefs := [] } 0 maxDepth with ⟨er, c1⟩
    have hc1 : tableFetchInv T c1 := by
      have h1 := expandRowAux_inv hok (maxDepth - 0).toNat 0 maxDepth row
        { context with processedRefs := [] } h
      rw [show expandRowAux fetch docId token (maxDepth - 0).toNat 0 maxDepth row
          { context with processedRefs := [] }
        = expandRowLookups fetch docId token row
          { context with processedRefs := [] } 0 maxDepth from rfl] at h1
      rwa [hR] at h1
    rcases hRest : expandAllRows fetch docId token maxDepth rest c1 with ⟨re, c2⟩
    have h2 := ih c1 hc1
    rw [hRest] at h2
    simpa [hR, hRest] using h2

lemma expandLookups_inv (fetch : FetchTable) (docId token T : String)
    (tbl : List (String × CodaRow)) (hok : fetch docId T token = .ok tbl)
    (rows : List CodaRow) (maxDepth : Int) :
    tableFetchInv T (expandLookups fetch docId token rows maxDepth).2 := by
  have hinit : tableFetchInv T initialContext := by
    refine ⟨by simp [initialContext], ?_, by simp [initialContext]⟩
    intro h1
    simp [initialContext] at h1
  unfold expandLookups
  by_cases hm : maxDepth ≤ 0
  · rw [if_pos hm]; exact hinit
  · rw [if_neg hm]
    exact expandAllRows_inv hok maxDepth rows initialContext hinit

/-! ## Concrete fixtures for the expansion claims -/

/-- A concrete Coda row-reference value as the API produces it
(`CodaRowReference` in src/types.ts). -/
def rowRefValue (tableId rowId : String) : RawValue :=
  .obj [("@context", .str "http://schema.org/"),
        ("@type", .str "StructuredValue"),
        ("additionalType", .str "row"),
        ("name", .str rowId),
        ("url", .str ""),
        ("tableId", .str tableId),
        ("rowId", .str rowId),
        ("tableUrl", .str "")]

/-- A concrete row with the given id and values (metadata fields fixed). -/
def mkTestRow (id : String) (values : List (String × RawValue)) : CodaRow :=
  { id := id, type := "row", href := "", name := none, index := 0,
    createdAt := "", updatedAt := "", browserLink := "", values := values }

/-- Row `A` of the cyclic pair: its only value references row `B`. -/
def c1RowA : CodaRow := mkTestRow "A" [("ref", rowRefValue "T" "B")]

/-- Row `B` of the cyclic pair: its only value references row `A` back. -/
def c1RowB : CodaRow := mkTestRow "B" [("ref", rowRefValue "T" "A")]

/-- An oracle serving the cyclic table `T = {A ↦ c1RowA, B ↦ c1RowB}`. -/
def c1Fetch : FetchTable := fun _ tableId _ =>
  if tableId == "T" then .ok [("A", c1RowA), ("B", c1RowB)]
  else .error "no such table"

/-- Claim C1: lookup expansion terminates for every input row, starting depth
and maxDepth — the (total, accepted-by-the-termination-checker) definition
`expandRowAux` recurses on the fuel `(maxDepth - currentDepth).toNat`, each
recursive call raising the depth by one — and expansion returns the row
unchanged once `depth ≥ maxDepth`; concretely, the cyclic pair `A → B → A`
expands at `maxDepth = 5` to a result (both rows delivered, one table fetch),
rather than recursing forever. -/
theorem claim_C1_expansion_terminates :
    (∀ (fetch : FetchTable) (docId token : String) (row : CodaRow)
        (context : ProcessingContext) (d m : Int), d ≥ m →
        expandRowLookups fetch docId token row context d m = (row, context))
    ∧ (expandLookups c1Fetch "doc" "tok" [c1RowA, c1RowB] 5).1.length = 2
    ∧ (expandLookups c1Fetch "doc" "tok" [c1RowA, c1RowB] 5).2.requestCount = 1 :=
  ⟨fun fetch docId token row context _ _ h =>
      expandRowLookups_base fetch docId token row context (Or.inr h),
    rfl, rfl⟩

/-- Witness for claim C1: the base case applied at depth 7 ≥ maxDepth 5. -/
theorem claim_C1_expansion_terminates_witness :
    expandRowLookups c1Fetch "doc" "tok" c1RowA initialContext 7 5
      = (c1RowA, initialContext) :=
  claim_C1_expansion_terminates.1 c1Fetch "doc" "tok" c1RowA initialContext 7 5
    (by decide)

/-- The referenced target row used by the claim C2 fixtures. -/
def c2Target : CodaRow := mkTestRow "A" []

/-- An oracle serving `T = {A ↦ c2Target}`. -/
def c2Fetch : FetchTable := fun _ tableId _ =>
  if tableId == "T" then .ok [("A", c2Target)] else .error "no such table"

/-- A single top-level row whose two sibling columns reference the same row
`T:A`; neither occurrence lies on a cycle in its own reference chain. -/
def c2SibRow : CodaRow :=
  mkTestRow "R" [("k1", rowRefValue "T" "A"), ("k2", rowRefValue "T" "A")]

/-- Two distinct top-level rows referencing the same target `T:A`. -/
def c2TwoRows : List CodaRow :=
  [mkTestRow "R1" [("k", rowRefValue "T" "A")],
   mkTestRow "R2" [("k", rowRefValue "T" "A")]]

/-- What the expanded reference to `T:A` looks like (the original reference
with the `values: {id, values}` sub-object spliced in). -/
def c2ExpandedRef : RawValue :=
  setObjField (rowRefValue "T" "A") "values"
    (.obj [("id", .str "A"), ("values", .obj [])])

/-- Counterexample for claim C2: the suppression is NOT limited to cycles
within the current expansion chain.  In `c2SibRow` the second sibling column
`k2` repeats the reference `T:A` already expanded for `k1`; `k2`'s own chain
`R → A` has no cycle, yet the processed-reference set (a per-top-level-row
visited set, never popped) suppresses it: `k2` keeps the plain un-expanded
reference while `k1` got the expanded one. -/
theorem claim_C2_cycle_suppression_counterexample :
    ((expandLookups c2Fetch "doc" "tok" [c2SibRow] 5).1.map
        (fun r => r.values.lookup "k2")) = [some (rowRefValue "T" "A")]
    ∧ ((expandLookups c2Fetch "doc" "tok" [c2SibRow] 5).1.map
        (fun r => r.values.lookup "k1")) = [some c2ExpandedRef]
    ∧ (rowRefValue "T" "A").getField "values" = none
    ∧ c2ExpandedRef.getField "values"
        = some (.obj [("id", .str "A"), ("values", .obj [])]) :=
  ⟨rfl, rfl, rfl, rfl⟩

/-- Claim C2 (amended): a row-reference whose `tableId:rowId` key is already
in the processed-reference set is not resolved — `expandSingleReference`
returns null with the context (hence caches, request counter and fetch log)
completely untouched, and the caller keeps the original un-expanded reference
in place (both for a single reference value and for an item inside a list);
the suppression applies to ANY reference key already processed earlier during
the same top-level row's expansion (not only to cycles on the current chain),
and because the processed set is cleared between top-level rows, the same
target referenced from two different top-level rows is expanded both times. -/
theorem claim_C2_cycle_suppression :
    (∀ (fetch : FetchTable) (docId token : String) (reference : RawValue)
        (context : ProcessingContext) (d m : Int),
        context.processedRefs.contains (refKeyOf reference) = true →
        expandSingleReference fetch docId token reference context d m
          = (none, context))
    ∧ (∀ (fetch : FetchTable) (docId token : String)
        (deeper : CodaRow → ProcessingContext → CodaRow × ProcessingContext)
        (key : String) (value : RawValue) (context : ProcessingContext),
        isRawRowReference value = true →
        (expandSingleWith fetch docId token deeper value context).1 = none →
        expandEntryHead fetch docId token deeper key value context
          = ((key, value),
             (expandSingleWith fetch docId token deeper value context).2))
    ∧ (∀ (fetch : FetchTable) (docId token : String)
        (deeper : CodaRow → ProcessingContext → CodaRow × ProcessingContext)
        (item : RawValue) (context : ProcessingContext),
        isRawRowReference item = true →
        (expandSingleWith fetch docId token deeper item context).1 = none →
        expandItemHead fetch docId token deeper item context
          = (item, false,
             (expandSingleWith fetch docId token deeper item context).2))
    ∧ ((expandLookups c2Fetch "doc" "tok" c2TwoRows 3).1.map
        (fun r => r.values.lookup "k"))
        = [some c2ExpandedRef, some c2ExpandedRef] := by
  refine ⟨?_, ?_, ?_, rfl⟩
  · intro fetch docId token reference context d m h
    unfold expandSingleReference expandSingleWith
    simp only [h, if_true]
  · intro fetch docId token deeper key value context h1 h2
    unfold expandEntryHead
    simp only [h1, if_true]
    rcases hE : expandSingleWith fetch docId token deeper value context with ⟨res, c1⟩
    rw [hE] at h2
    simp only at h2
    subst h2
    simp [hE]
  · intro fetch docId token deeper item context h1 h2
    unfold expandItemHead
    simp only [h1, if_true]
    rcases hE : expandSingleWith fetch docId token deeper item context with ⟨res, c1⟩
    rw [hE] at h2
    simp only at h2
    subst h2
    simp [hE]

/-- A context whose processed set already contains the key `T:A`. -/
def c2SeenContext : ProcessingContext :=
  { initialContext with processedRefs := [refKeyOf (rowRefValue "T" "A")] }

/-- Witness for claim C2: the hypothesis-bearing conjuncts applied at concrete
inputs — a reference whose key is already processed is returned unchanged with
the context untouched, and the entry/item loops keep the original value. -/
theorem claim_C2_cycle_suppression_witness :
    expandSingleReference c2Fetch "doc" "tok" (rowRefValue "T" "A")
        c2SeenContext 0 5 = (none, c2SeenContext)
    ∧ expandEntryHead c2Fetch "doc" "tok" (fun r c => (r, c)) "k2"
        (rowRefValue "T" "A") c2SeenContext
        = (("k2", rowRefValue "T" "A"),
           (expandSingleWith c2Fetch "doc" "tok" (fun r c => (r, c))
             (rowRefValue "T" "A") c2SeenContext).2)
    ∧ expandItemHead c2Fetch "doc" "tok" (fun r c => (r, c))
        (rowRefValue "T" "A") c2SeenContext
        = (rowRefValue "T" "A", false,
           (expandSingleWith c2Fetch "doc" "tok" (fun r c => (r, c))
             (rowRefValue "T" "A") c2SeenContext).2) :=
  ⟨claim_C2_cycle_suppression.1 c2Fetch "doc" "tok" (rowRefValue "T" "A")
      c2SeenContext 0 5 rfl,
   claim_C2_cycle_suppression.2.1 c2Fetch "doc" "tok" (fun r c => (r, c)) "k2"
      (rowRefValue "T" "A") c2SeenContext rfl rfl,
   claim_C2_cycle_suppression.2.2.1 c2Fetch "doc" "tok" (fun r c => (r, c))
      (rowRefValue "T" "A") c2SeenContext rfl rfl⟩

/-- An oracle for which every table fetch fails. -/
def c3FailFetch : FetchTable := fun _ _ _ => .error "boom"

/-- Two rows referencing two different rows of the same table `T`. -/
def c3FailRows : List CodaRow :=
  [mkTestRow "R1" [("k", rowRefValue "T" "r1")],
   mkTestRow "R2" [("k", rowRefValue "T" "r2")]]

/-- Counterexample for claim C3: when the fetch of table `T` fails, only the
failing `tableId:rowId` key is negatively cached, not the table, so a batch of
rows that each reference some row of `T` can fetch `T` more than once — here
twice, with the request counter reaching 2, not 1. -/
theorem claim_C3_cache_reuse_counterexample :
    (expandLookups c3FailFetch "doc" "tok" c3FailRows 1).2.requestCount = 2
    ∧ (expandLookups c3FailFetch "doc" "tok" c3FailRows 1).2.fetchLog.count "T" = 2
    ∧ 1 < (expandLookups c3FailFetch "doc" "tok" c3FailRows 1).2.fetchLog.count "T" :=
  ⟨rfl, rfl, by decide⟩

/-- The single-row lookup table served by `c3OkFetch`. -/
def c3Table : List (String × CodaRow) := [("A", mkTestRow "A" [])]

/-- An oracle that successfully serves table `T`. -/
def c3OkFetch : FetchTable := fun _ tableId _ =>
  if tableId == "T" then .ok c3Table else .error "no such table"

/-- Three rows all referencing a row of the same lookup table `T`. -/
def c3Rows : List CodaRow :=
  [mkTestRow "R1" [("k", rowRefValue "T" "A")],
   mkTestRow "R2" [("k", rowRefValue "T" "A")],
   mkTestRow "R3" [("k", rowRefValue "T" "A")]]

/-- Claim C3 (amended): the caches are created once per `expandLookups` call
and never reset between rows, so any table whose fetch succeeds is fetched at
most once per session, whatever the batch and depth — and the request counter
counts exactly the fetches issued, so it increments by 1 for that table (not
once per referencing row); concretely, three rows referencing the same row of
table `T` produce a single request.  (A failed fetch only negatively caches
the one `tableId:rowId` key, so the success hypothesis is needed — see the
counterexample.) -/
theorem claim_C3_cache_reuse :
    (∀ (fetch : FetchTable) (docId token T : String)
        (tbl : List (String × CodaRow)) (rows : List CodaRow) (maxDepth : Int),
        fetch docId T token = .ok tbl →
        (expandLookups fetch docId token rows maxDepth).2.fetchLog.count T ≤ 1
        ∧ (expandLookups fetch docId token rows maxDepth).2.requestCount
            = (expandLookups fetch docId token rows maxDepth).2.fetchLog.length)
    ∧ (expandLookups c3OkFetch "doc" "tok" c3Rows 2).2.requestCount = 1 := by
  refine ⟨?_, rfl⟩
  intro fetch docId token T tbl rows maxDepth hok
  have h := expandLookups_inv fetch docId token T tbl hok rows maxDepth
  exact ⟨h.1, h.2.2⟩

/-- Witness for claim C3: the general conjunct applied to the concrete
successful oracle and batch. -/
theorem claim_C3_cache_reuse_witness :
    (expandLookups c3OkFetch "doc" "tok" c3Rows 2).2.fetchLog.count "T" ≤ 1
    ∧ (expandLookups c3OkFetch "doc" "tok" c3Rows 2).2.requestCount
        = (expandLookups c3OkFetch "doc" "tok" c3Rows 2).2.fetchLog.length :=
  claim_C3_cache_reuse.1 c3OkFetch "doc" "tok" "T" c3Table c3Rows 2 rfl

/-- A row carrying an (un-expandable) reference, for the C4 fixtures. -/
def c4Row : CodaRow := mkTestRow "R" [("k", rowRefValue "T" "A")]

/-- An oracle that would serve table `T` — never consulted at depth 0. -/
def c4Fetch : FetchTable := fun _ tableId _ =>
  if tableId == "T" then .ok [("A", mkTestRow "A" [])] else .error "no such table"

/-- Claim C4: with a non-positive maximum depth, expansion is the identity
and performs no network calls — `expandLookups` returns the rows unchanged
with the untouched fresh context (whose request counter is 0 and fetch log
empty), and `expandRowLookups` returns its row unchanged whenever
`maxDepth ≤ 0` or `depth ≥ maxDepth`. -/
theorem claim_C4_depth_nonpositive_noop :
    (∀ (fetch : FetchTable) (docId token : String) (rows : List CodaRow)
        (m : Int), m ≤ 0 →
        expandLookups fetch docId token rows m = (rows, initialContext))
    ∧ initialContext.requestCount = 0
    ∧ initialContext.fetchLog = []
    ∧ (∀ (fetch : FetchTable) (docId token : String) (row : CodaRow)
        (context : ProcessingContext) (d m : Int), m ≤ 0 ∨ d ≥ m →
        expandRowLookups fetch docId token row context d m = (row, context)) := by
  refine ⟨?_, rfl, rfl, ?_⟩
  · intro fetch docId token rows m h
    unfold expandLookups
    rw [if_pos h]
  · intro fetch docId token row context d m h
    exact expandRowLookups_base fetch docId token row context h

/-- Witness for claim C4: `maxLookupDepth = 0` (the loader's default) leaves a
batch containing a reference-bearing row untouched, and a negative depth
leaves a single row untouched. -/
theorem claim_C4_depth_nonpositive_noop_witness :
    expandLookups c4Fetch "doc" "tok" [c4Row] 0 = ([c4Row], initialContext)
    ∧ expandRowLookups c4Fetch "doc" "tok" c4Row initialContext 0 (-3)
        = (c4Row, initialContext) :=
  ⟨claim_C4_depth_nonpositive_noop.1 c4Fetch "doc" "tok" [c4Row] 0 (by decide),
   claim_C4_depth_nonpositive_noop.2.2.2 c4Fetch "doc" "tok" c4Row
     initialContext 0 (-3) (Or.inl (by decide))⟩

/-- An oracle that serves table `T` but fails on table `BAD`. -/
def c5Fetch : FetchTable := fun _ tableId _ =>
  if tableId == "T" then .ok [("A", mkTestRow "A" [])] else .error "boom"

/-- A row whose first value references the failing table and whose second
references the healthy one. -/
def c5Row : CodaRow :=
  mkTestRow "R" [("bad", rowRefValue "BAD" "x"), ("good", rowRefValue "T" "A")]

/-- The expanded form of the healthy reference of `c5Row`. -/
def c5ExpandedRef : RawValue :=
  setObjField (rowRefValue "T" "A") "values"
    (.obj [("id", .str "A"), ("values", .obj [])])

/-- Claim C5: when fetching a referenced table fails, `expandSingleReference`
catches the failure, logs a warning, stores null in the row-level cache under
the `tableId:rowId` key, increments the request counter (the increment
precedes the fetch in the source) and returns null — and expansion continues:
in the concrete row the failing reference is kept un-expanded while the next
value of the same row is still expanded, the key is negatively cached, and
exactly one warning is logged. -/
theorem claim_C5_fetch_failure_degrades :
    (∀ (fetch : FetchTable) (docId token : String) (reference : RawValue)
        (context : ProcessingContext) (d m : Int) (e : String),
        fetch docId (refTableId reference) token = .error e →
        context.processedRefs.contains (refKeyOf reference) = false →
        context.tableCache.lookup (refTableId reference) = none →
        context.cache.lookup (refKeyOf reference) = none →
        expandSingleReference fetch docId token reference context d m =
          (none, { context with
            requestCount := context.requestCount + 1,
            fetchLog := refTableId reference :: context.fetchLog,
            cache := (refKeyOf reference, none) :: context.cache,
            warnLog := ("Failed to fetch table " ++ refTableId reference
              ++ ": " ++ e) :: context.warnLog }))
    ∧ ((expandLookups c5Fetch "doc" "tok" [c5Row] 1).1.map
        (fun r => (r.values.lookup "bad", r.values.lookup "good")))
        = [(some (rowRefValue "BAD" "x"), some c5ExpandedRef)]
    ∧ (expandLookups c5Fetch "doc" "tok" [c5Row] 1).2.cache.lookup "BAD:x"
        = some none
    ∧ (expandLookups c5Fetch "doc" "tok" [c5Row] 1).2.warnLog
        = ["Failed to fetch table BAD: boom"] := by
  refine ⟨?_, rfl, rfl, rfl⟩
  intro fetch docId token reference context d m e h1 h2 h3 h4
  unfold expandSingleReference expandSingleWith
  simp only [h2, Bool.false_eq_true, if_false]
  have hres : resolveReference fetch docId token reference context =
      (none, { context with
        requestCount := context.requestCount + 1,
        fetchLog := refTableId reference :: context.fetchLog,
        cache := (refKeyOf reference, none) :: context.cache,
        warnLog := ("Failed to fetch table " ++ refTableId reference
          ++ ": " ++ e) :: context.warnLog }) := by
    unfold resolveReference
    simp [h1, h3, h4]
  rw [hres]

/-- Witness for claim C5: the general conjunct applied to the concrete failing
oracle, reference and fresh context. -/
theorem claim_C5_fetch_failure_degrades_witness :
    expandSingleReference c3FailFetch "doc" "tok" (rowRefValue "T" "A")
        initialContext 0 5 =
      (none, { initialContext with
        requestCount := 1,
        fetchLog := ["T"],
        cache := [("T:A", none)],
        warnLog := ["Failed to fetch table T: boom"] }) :=
  claim_C5_fetch_failure_degrades.1 c3FailFetch "doc" "tok" (rowRefValue "T" "A")
    initialContext 0 5 "boom" rfl rfl rfl rfl
